import Mathlib

/-!
Verification of the EchoScript speech-event orchestration pipeline.

This file gives a shallow embedding of the core of the repository:

* `GroqSTTClient` (src/unnamed/part_001, first document): the buffered
  transcription session (`startSession`, `sendAudio`, `processBuffer`,
  `createWavBuffer`, `stopSession`), modelled as a small labelled transition
  system.  Asynchrony is made explicit: `processBuffer` is split into its
  synchronous prefix (runs up to the first `await`: sets `isProcessing`,
  snapshots and clears the buffer) and its completion (`flushEnd`, when the
  network call returns).  Wall-clock time is abstracted into the boolean
  `elapsed` parameter of `sendAudio` (whether the buffer window duration has
  been exceeded).  Logging via `console.*` and the temp-file traffic are not
  modelled; the emitted events (`open`, `transcription`, `close`, `error`) are.
* `CrewAIAgent.analyze` and `extractJsonObject` (src/unnamed/part_001, second
  document): the natural-language intent extraction.  The Groq chat backend
  and `JSON.parse` are external dependencies; they enter the model as the
  parameters `backend : Option (List Char)` (`none` = the call threw) and
  `parse : List Char → Option Json` (`none` = `JSON.parse` threw).
* `TriggerWordDetector.detect` (src/src/main/preload-dashboard.js, second
  document): substring check for the deactivate phrase, then a
  word-boundary regex check for the activate word.
* `SpeechRecognitionController` (src/src/main/modules/
  SpeechRecognitionController.js): `start`, `stop`, `handleError`,
  `stopBackgroundListening` and `processFinalTranscription`, modelled as
  functions from controller state to a new state plus an ordered trace of
  actions (emitted events, text injections, command executions).  The
  collaborators (auth service, token tracker, translation service, CrewAI
  agent) enter as environment parameters.  Indicator-window updates, console
  logging and file logging are not modelled.

Text is modelled as `List Char`; JavaScript string primitives
(`trim`, `toLowerCase`, `includes`, `lastIndexOf`, the regexes used by the
source) are defined on `List Char` below, mirroring their JS semantics on the
ASCII inputs the program manipulates.
-/

namespace EchoScript

/-- Character-list view of a string. -/
abbrev L := List Char

/-- JS `\w` character class: ASCII letters, digits and underscore. -/
def isWordChar (c : Char) : Bool := c.isAlphanum || c = '_'

/-- Drop from the end of the list while the predicate holds. -/
def dropWhileEnd (p : Char → Bool) (l : L) : L :=
  (l.reverse.dropWhile p).reverse

/-- JS `String.prototype.trim` (both ends). -/
def trimL (l : L) : L := dropWhileEnd Char.isWhitespace (l.dropWhile Char.isWhitespace)

/-- JS `String.prototype.toLowerCase` on ASCII text. -/
def toLowerL (l : L) : L := l.map Char.toLower

/-- JS `String.prototype.includes` (substring containment). -/
def isInfixL (pat l : L) : Bool :=
  match l with
  | [] => pat.isPrefixOf []
  | _ :: rest => pat.isPrefixOf l || isInfixL pat rest

/-- JS `String.prototype.endsWith`. -/
def isSuffixL (pat l : L) : Bool := pat.reverse.isPrefixOf l.reverse

/-- Index of the first occurrence of a character, JS `indexOf`. -/
def firstIdxOf (c : Char) : L → Option Nat
  | [] => none
  | x :: xs =>
    if x = c then some 0
    else match firstIdxOf c xs with
         | some i => some (i + 1)
         | none => none

/-- Index of the last occurrence of a character, JS `lastIndexOf`. -/
def lastIdxOf (c : Char) (l : L) : Option Nat :=
  match firstIdxOf c l.reverse with
  | some i => some (l.length - 1 - i)
  | none => none

/-- Start index of the last occurrence of a pattern, JS `String.lastIndexOf`. -/
def lastIndexOfL (pat l : L) : Option Nat :=
  ((List.range (l.length + 1)).filter (fun i => pat.isPrefixOf (l.drop i))).getLast?

/-! ## GroqSTTClient (src/unnamed/part_001): the TranscriptionSession -/

/-- One PCM audio chunk as delivered by the microphone (a byte list; `sendAudio`
rejects empty chunks). -/
abbrev Chunk := List Nat

/-- Mutable state of `GroqSTTClient`: `isConnected`, the `audioBuffer` of
chunks in arrival order, the `isProcessing` flag, and the snapshot of the
buffer (`pending`) taken by the in-flight `processBuffer` call — in the source
this snapshot is the local `audioData`/`wavBuffer` of the suspended
`processBuffer` invocation; it is empty when no flush is in flight.
`bufferStartTime` / `sessionStartTime` are wall-clock values abstracted away
(the elapsed-duration comparison becomes the `elapsed` input of `send`). -/
structure GState where
  connected : Bool
  buffer : List Chunk
  processing : Bool
  pending : List Chunk
deriving DecidableEq, Repr

/-- Events scheduled against a `GroqSTTClient`.  `send c elapsed` is a
`sendAudio(c)` call, `elapsed` telling whether `now - bufferStartTime` has
reached `bufferDuration`.  `flushEnd ok` is the in-flight `processBuffer`
resuming after the Groq transcription call; `ok` is true when the call
succeeded and returned non-empty text, false when it threw
(`transcribeError`).  `stop ok` is a `stopSession()` call, `ok` giving the
backend outcome of its final flush if one runs.  `start` is
`startSession()`. -/
inductive GEv where
  | start : GEv
  | send : Chunk → Bool → GEv
  | flushEnd : Bool → GEv
  | stop : Bool → GEv
deriving DecidableEq, Repr

/-- Events emitted by the client (the `transcription` payload is identified
with the list of chunks whose concatenation was transcribed).  `errorEv`
corresponds to `emit('error', ...)` in the outer catch of `processBuffer` —
reachable only via file-system failures, which are outside this model; the
inner catch around the transcription call logs and emits nothing. -/
inductive GEmit where
  | openEv : GEmit
  | transcription : List Chunk → GEmit
  | closeEv : GEmit
  | errorEv : GEmit
deriving DecidableEq, Repr

/-- `startSession()`: no-op warning if already connected, else reset the
buffer window, mark connected and emit `open`. -/
def stepStart (s : GState) : GState × List GEmit :=
  if s.connected then (s, [])
  else ({ connected := true, buffer := [], processing := s.processing,
          pending := s.pending }, [GEmit.openEv])

/-- `sendAudio(c)`: reject when not connected or the chunk is empty; else
append to the buffer and, if the window has elapsed and no flush is in
progress, run the synchronous prefix of `processBuffer` (set `isProcessing`,
snapshot the concatenated buffer, clear it) — the network call itself
completes later as a `flushEnd` event.  The boolean result is the value
returned to the caller. -/
def stepSend (c : Chunk) (elapsed : Bool) (s : GState) : GState × Bool :=
  if !s.connected then (s, false)
  else if c = [] then (s, false)
  else
    let s1 : GState := { s with buffer := s.buffer ++ [c] }
    if elapsed && !s1.processing then
      ({ s1 with processing := true, buffer := [], pending := s1.buffer }, true)
    else (s1, true)

/-- The in-flight `processBuffer` resumes: on success emit one
`transcription` event carrying the snapshot, on failure the inner catch only
logs; either way `isProcessing` is cleared in the `finally` block.  A
`flushEnd` without an in-flight flush does not occur; it is a no-op here. -/
def stepFlushEnd (ok : Bool) (s : GState) : GState × List GEmit :=
  if !s.processing then (s, [])
  else ({ s with processing := false, pending := [] },
        if ok then [GEmit.transcription s.pending] else [])

/-- `stopSession()`: no-op if already stopped.  Otherwise, if the buffer is
non-empty, `await this.processBuffer()` — which flushes fully when no flush
is in flight, but returns immediately (dropping nothing yet) when
`isProcessing` is set; then clear the buffer, mark disconnected and emit
`close`.  Note that in the in-flight case the remaining buffer is discarded
by the `this.audioBuffer = []` assignment without ever being flushed. -/
def stepStop (ok : Bool) (s : GState) : GState × List GEmit :=
  if !s.connected then (s, [])
  else
    let flushed : GState × List GEmit :=
      if s.buffer ≠ [] ∧ !s.processing then
        ({ s with buffer := [], pending := [] },
         if ok then [GEmit.transcription s.buffer] else [])
      else (s, [])
    ({ flushed.1 with connected := false, buffer := [] },
     flushed.2 ++ [GEmit.closeEv])

/-- Dispatch one event. -/
def stepEv (s : GState) (e : GEv) : GState × List GEmit :=
  match e with
  | GEv.start => stepStart s
  | GEv.send c elapsed => ((stepSend c elapsed s).1, [])
  | GEv.flushEnd ok => stepFlushEnd ok s
  | GEv.stop ok => stepStop ok s

/-- Run a list of events, collecting the emissions in order. -/
def runG (s : GState) : List GEv → GState × List GEmit
  | [] => (s, [])
  | e :: es =>
    let (s1, t1) := stepEv s e
    let (s2, t2) := runG s1 es
    (s2, t1 ++ t2)

/-- The fresh client before `startSession`. -/
def initG : GState := { connected := false, buffer := [], processing := false, pending := [] }

/-- The blob of the flush started (synchronously) by this event, if it starts
one: a `sendAudio` that trips the window with no flush in flight, or a
`stopSession` final flush on a non-empty buffer with no flush in flight. -/
def flushStarted (s : GState) (e : GEv) : Option (List Chunk) :=
  match e with
  | GEv.send c elapsed =>
    if s.connected && c ≠ [] && elapsed && !s.processing
    then some (s.buffer ++ [c]) else none
  | GEv.stop _ =>
    if s.connected && s.buffer ≠ [] && !s.processing then some s.buffer else none
  | _ => none

/-- The blob of the first flush started while running the events, if any. -/
def firstFlush (s : GState) : List GEv → Option (List Chunk)
  | [] => none
  | e :: es =>
    match flushStarted s e with
    | some b => some b
    | none => firstFlush (stepEv s e).1 es

/-- True for every event except a `stopSession` call. -/
def notStop : GEv → Bool
  | GEv.stop _ => false
  | _ => true

/-- True when no event of the list is a `stopSession` call and none of them
starts a flush (so the events only buffer audio, complete the in-flight
flush, or are no-ops). -/
def benignRun (s : GState) : List GEv → Bool
  | [] => true
  | e :: es =>
    (flushStarted s e).isNone && notStop e && benignRun (stepEv s e).1 es

/-- Count of `transcription` events in a trace. -/
def transCount (t : List GEmit) : Nat :=
  t.countP (fun e => match e with | GEmit.transcription _ => true | _ => false)

/-- Count of `close` events in a trace. -/
def closeCount (t : List GEmit) : Nat :=
  t.countP (fun e => match e with | GEmit.closeEv => true | _ => false)

/-! ## createWavBuffer (src/unnamed/part_001) -/

/-- Byte list of an ASCII tag written by `Buffer.write`. -/
def asciiL (s : String) : List Nat := s.toList.map Char.toNat

/-- Little-endian 16-bit write (`Buffer.writeUInt16LE`). -/
def u16LE (n : Nat) : List Nat := [n % 256, n / 256 % 256]

/-- Little-endian 32-bit write (`Buffer.writeUInt32LE`; the source value must
be below 2^32 or the JS call throws, which the theorems assume). -/
def u32LE (n : Nat) : List Nat :=
  [n % 256, n / 256 % 256, n / 65536 % 256, n / 16777216 % 256]

/-- `createWavBuffer(pcmData)`: a 44-byte RIFF/WAVE header (PCM format 1,
mono, 16 kHz, 16 bits per sample, byte rate 32000, block align 2) followed by
the PCM data. -/
def createWavBuffer (pcm : List Nat) : List Nat :=
  asciiL "RIFF" ++ u32LE (36 + pcm.length) ++ asciiL "WAVE" ++
  asciiL "fmt " ++ u32LE 16 ++ u16LE 1 ++ u16LE 1 ++ u32LE 16000 ++
  u32LE 32000 ++ u16LE 2 ++ u16LE 16 ++
  asciiL "data" ++ u32LE pcm.length ++ pcm

/-- Little-endian 16-bit read at a byte offset (decoder, for stating what the
header declares). -/
def readU16LE (bs : List Nat) (i : Nat) : Nat :=
  bs.getD i 0 + 256 * bs.getD (i + 1) 0

/-- Little-endian 32-bit read at a byte offset. -/
def readU32LE (bs : List Nat) (i : Nat) : Nat :=
  bs.getD i 0 + 256 * bs.getD (i + 1) 0 + 65536 * bs.getD (i + 2) 0 +
    16777216 * bs.getD (i + 3) 0

/-! ## CrewAIAgent (src/unnamed/part_001, second document): NL intent extraction -/

/-- JSON values, as produced by the external `JSON.parse`. -/
inductive Json where
  | str : L → Json
  | num : Int → Json
  | jsonBool : Bool → Json
  | null : Json
  | arr : List Json → Json
  | obj : List (L × Json) → Json

/-- Field access guarded by `Object.prototype.hasOwnProperty`: defined only on
objects; on any other value the property is absent. -/
def Json.getField (j : Json) (k : L) : Option Json :=
  match j with
  | Json.obj fields => fields.lookup k
  | _ => none

/-- `extractJsonObject(text)`: throws (`none`) on empty text or when no
balanced-looking first-brace/last-brace span exists; otherwise returns
`text.slice(start, end + 1)` where `start = text.indexOf(brace-open)` and
`end = text.lastIndexOf(brace-close)`, requiring `start < end`. -/
def extractJsonObject (text : L) : Option L :=
  if text = [] then none
  else
    match firstIdxOf '\x7b' text, lastIdxOf '\x7d' text with
    | some s, some e => if e ≤ s then none else some ((text.take (e + 1)).drop s)
    | _, _ => none

/-- The markdown code-fence stripping in `analyze`: if the content starts with
three backticks plus `json`, remove that prefix and following whitespace and
remove a trailing fence (the fence characters at the very end plus the
whitespace before them); likewise for a bare three-backtick fence. -/
def fenceChars : L := ['`', '`', '`']

/-- Remove a trailing code fence: the regex replaces a final
whitespace-then-fence run, so the fence must sit at the very end. -/
def stripTrailingFence (l : L) : L :=
  if isSuffixL fenceChars l then
    dropWhileEnd Char.isWhitespace (l.take (l.length - 3))
  else l

/-- Remove a leading code fence written as in the source
(`startsWith` three backticks + `json`, or three backticks alone), then the
whitespace that follows it. -/
def stripFences (l : L) : L :=
  if (fenceChars ++ "json".toList).isPrefixOf l then
    stripTrailingFence ((l.drop 7).dropWhile Char.isWhitespace)
  else if fenceChars.isPrefixOf l then
    stripTrailingFence ((l.drop 3).dropWhile Char.isWhitespace)
  else l

/-- The `variations` table inside `analyze` (command-string synonyms). -/
def variations : List (L × L) :=
  [("sent".toList, "enter".toList), ("send".toList, "enter".toList),
   ("send it".toList, "enter".toList), ("send the message".toList, "enter".toList),
   ("send this".toList, "enter".toList), ("send this message".toList, "enter".toList),
   ("post".toList, "enter".toList), ("post this".toList, "enter".toList),
   ("submit".toList, "enter".toList), ("submit this".toList, "enter".toList),
   ("return".toList, "enter".toList), ("newline".toList, "enter".toList),
   ("new line".toList, "enter".toList), ("next line".toList, "enter".toList),
   ("press enter".toList, "enter".toList), ("press tab".toList, "tab".toList),
   ("hit enter".toList, "enter".toList), ("hit tab".toList, "tab".toList),
   ("select all".toList, "ctrl+a".toList), ("select everything".toList, "ctrl+a".toList),
   ("copy".toList, "ctrl+c".toList), ("copy it".toList, "ctrl+c".toList),
   ("paste".toList, "ctrl+v".toList), ("paste it".toList, "ctrl+v".toList),
   ("cut".toList, "ctrl+x".toList), ("cut it".toList, "ctrl+x".toList)]

/-- `this.commandMapping` of `CrewAIAgent` (exact matches only). -/
def crewCommandMapping : List (L × L) :=
  [("enter".toList, "enter".toList), ("return".toList, "enter".toList),
   ("sent".toList, "enter".toList), ("send".toList, "enter".toList),
   ("new line".toList, "enter".toList), ("tab".toList, "tab".toList),
   ("select all".toList, "ctrl+a".toList), ("select everything".toList, "ctrl+a".toList),
   ("copy".toList, "ctrl+c".toList), ("paste".toList, "ctrl+v".toList),
   ("cut".toList, "ctrl+x".toList), ("undo".toList, "ctrl+z".toList),
   ("redo".toList, "ctrl+y".toList), ("save".toList, "ctrl+s".toList)]

/-- `validSimpleKeys` whitelist in `analyze`. -/
def validSimpleKeys : List L :=
  ["enter".toList, "tab".toList, "backspace".toList, "delete".toList,
   "space".toList, "escape".toList, "esc".toList]

/-- Normalization of one command string returned by the LLM: non-strings and
the empty string (falsy) are dropped; otherwise lowercase and trim, then try
the `variations` table, the exact `commandMapping`, the
`ctrl+`/`shift+`/`alt+` pass-through, and the simple-key whitelist; anything
else is dropped (`null`, filtered out). -/
def normalizeCmd (j : Json) : Option L :=
  match j with
  | Json.str s =>
    if s = [] then none
    else
      let n := trimL (toLowerL s)
      match variations.lookup n with
      | some v => some v
      | none =>
        match crewCommandMapping.lookup n with
        | some v => some v
        | none =>
          if isInfixL "ctrl+".toList n || isInfixL "shift+".toList n
             || isInfixL "alt+".toList n then some n
          else if validSimpleKeys.contains n then some n
          else none
  | _ => none

/-- Result of intent extraction: literal text to type and the ordered
canonical command tokens. -/
structure Analysis where
  text : L
  commands : List L
deriving DecidableEq, Repr

/-- `CrewAIAgent.analyze(transcribedText)`.  `enabled` is
`this.enabled && this.groqClient`; `backend` is the raw content string of the
chat completion (`none` when the API call threw); `parse` is the external
`JSON.parse` (`none` when it throws).  Every failure path lands in the
`catch`, which returns the original transcript with no commands.  A `text`
property whose value is not a string makes `text.trim()` throw in JS, which
the same `catch` turns into the fallback. -/
def analyze (enabled : Bool) (transcript : L) (backend : Option L)
    (parse : L → Option Json) : Analysis :=
  if !enabled then { text := transcript, commands := [] }
  else if trimL transcript = [] then { text := [], commands := [] }
  else
    match backend with
    | none => { text := transcript, commands := [] }
    | some raw =>
      let content := stripFences (trimL raw)
      match extractJsonObject content with
      | none => { text := transcript, commands := [] }
      | some jsonText =>
        match parse jsonText with
        | none => { text := transcript, commands := [] }
        | some parsed =>
          let commands : List Json :=
            match parsed.getField "commands".toList with
            | some (Json.arr xs) => xs
            | _ => []
          match parsed.getField "text".toList with
          | some (Json.str s) =>
            { text := trimL s, commands := commands.filterMap normalizeCmd }
          | some _ => { text := transcript, commands := [] }
          | none =>
            { text := trimL transcript, commands := commands.filterMap normalizeCmd }

/-- The failure condition of the claim: the backend call threw, or no JSON
object could be extracted from its response, or `JSON.parse` threw on the
extracted span. -/
def analyzeFailed (backend : Option L) (parse : L → Option Json) : Bool :=
  match backend with
  | none => true
  | some raw =>
    match extractJsonObject (stripFences (trimL raw)) with
    | none => true
    | some jsonText => (parse jsonText).isNone

/-! ## TriggerWordDetector (src/src/main/preload-dashboard.js) -/

/-- Configuration of the trigger-word gate. -/
structure TrigCfg where
  enabled : Bool
  caseSensitive : Bool
  triggerWord : L
  deactivatePhrase : L
deriving DecidableEq, Repr

/-- Detection outcome type. -/
inductive TrigType where
  | activate : TrigType
  | deactivate : TrigType
deriving DecidableEq, Repr

/-- Detection result (`matched` is the configured phrase or word echoed back
in the `phrase`/`word` field of the source object). -/
structure TrigRes where
  resType : TrigType
  matched : L
deriving DecidableEq, Repr

/-- `containsPhrase`: plain substring containment (`String.includes`). -/
def containsPhrase (text phrase : L) : Bool := isInfixL phrase text

/-- One step of the word-boundary scan: does the word occur at the head of
`t`, with `prev` the character before that position?  JS `\b` demands a
word/non-word transition on both sides; the command words and trigger words
all begin and end with word characters, so the boundary reduces to the
neighbouring characters (or the text edges) being non-word. -/
def wordAtHead (prev : Option Char) (t w : L) : Bool :=
  w.isPrefixOf t
    && (match prev with | none => true | some c => !isWordChar c)
    && !isWordChar ((t.drop w.length).headD ' ')

/-- Scan all positions of `t` for a boundary-delimited occurrence of `w`. -/
def wordScan (prev : Option Char) (t w : L) : Bool :=
  match t with
  | [] => wordAtHead prev [] w
  | c :: rest => wordAtHead prev t w || wordScan (some c) rest w

/-- `containsWord`: the regex boundary + escaped word + boundary with the `i`
flag — always case-insensitive, independent of the `caseSensitive` setting. -/
def containsWord (text word : L) : Bool :=
  wordScan none (toLowerL text) (toLowerL word)

/-- `TriggerWordDetector.detect(text)`: null when disabled or the text is
empty (falsy); normalize per the case-sensitivity setting; check the
deactivate phrase first by substring containment, then the activate word by
word-boundary match. -/
def detect (cfg : TrigCfg) (text : L) : Option TrigRes :=
  if !cfg.enabled || text = [] then none
  else
    let nt := if cfg.caseSensitive then trimL text else toLowerL (trimL text)
    let ntr := if cfg.caseSensitive then cfg.triggerWord else toLowerL cfg.triggerWord
    let nde := if cfg.caseSensitive then cfg.deactivatePhrase else toLowerL cfg.deactivatePhrase
    if containsPhrase nt nde then
      some { resType := TrigType.deactivate, matched := cfg.deactivatePhrase }
    else if containsWord nt ntr then
      some { resType := TrigType.activate, matched := cfg.triggerWord }
    else none

/-! ## SpeechRecognitionController (src/src/main/modules/SpeechRecognitionController.js) -/

/-- Controller states (`this.state`). -/
inductive Mode where
  | idle : Mode
  | listening : Mode
  | background_listening : Mode
  | processing : Mode
  | error : Mode
deriving DecidableEq, Repr

/-- Controller state: the state-machine mode, the `backgroundListening` flag
and the `finalTextBuffer` text accumulator.  The STT client, microphone and
indicator are collaborators whose calls appear in the action trace. -/
structure CState where
  mode : Mode
  backgroundListening : Bool
  finalTextBuffer : L
deriving DecidableEq, Repr

/-- Modelled from the spec: `CommandParser.js` is not under src/ — only its
caller `SpeechRecognitionController` and the README document it.  Per spec
section 4.3 the fallback grammar is a closed mapping from literal command
phrases to canonical tokens, and the full transcript is first checked as an
exact command.  The phrase table is the README built-in command table plus
the bare words the controller's trailing-word scan feeds to `parse`
("sent"/"send"/"enter"/"return" map to "enter", per the controller's own
comment: "hello sent" types "hello" then executes "enter"). -/
def commandPhrases : List (L × L) :=
  [("press enter".toList, "enter".toList), ("new line".toList, "enter".toList),
   ("enter".toList, "enter".toList), ("return".toList, "enter".toList),
   ("sent".toList, "enter".toList), ("send".toList, "enter".toList),
   ("press backspace".toList, "backspace".toList),
   ("backspace".toList, "backspace".toList), ("delete".toList, "backspace".toList),
   ("press tab".toList, "tab".toList), ("tab".toList, "tab".toList),
   ("select all".toList, "ctrl+a".toList), ("copy".toList, "ctrl+c".toList),
   ("paste".toList, "ctrl+v".toList), ("cut".toList, "ctrl+x".toList),
   ("undo".toList, "ctrl+z".toList), ("redo".toList, "ctrl+y".toList),
   ("save".toList, "ctrl+s".toList), ("period".toList, "period".toList),
   ("comma".toList, "comma".toList),
   ("question mark".toList, "shift+/".toList),
   ("exclamation mark".toList, "shift+1".toList),
   ("exclamation point".toList, "shift+1".toList)]

/-- Modelled from the spec (see `commandPhrases`): `CommandParser.parse`
returns a command token for an exactly-matching phrase (after lowercasing and
trimming) and `type: text` otherwise — rendered here as `Option`. -/
def parseCmd (t : L) : Option L :=
  commandPhrases.lookup (trimL (toLowerL t))

/-- The `commandWords` list of `processFinalTranscription` (multi-word
phrases first, then single words — the order is the scan precedence). -/
def commandWords : List L :=
  ["new line".toList, "select all".toList, "question mark".toList,
   "exclamation mark".toList, "exclamation point".toList,
   "open parenthesis".toList, "close parenthesis".toList,
   "open bracket".toList, "close bracket".toList,
   "sent".toList, "send".toList, "enter".toList, "return".toList,
   "tab".toList, "backspace".toList, "delete".toList]

/-- The trailing-punctuation class of the scan regexes. -/
def punctChars : L := ['.', '!', '?', ',', ';', ':']

/-- The per-word regex of the trailing-command scan.  Multi-word phrase `w`:
the phrase at the end followed by optional whitespace and optional trailing
punctuation.  Single word `w`: the same with a word boundary before the word.
Since the regex tail is word, whitespace-run, punctuation-run, end, a match
is equivalent to: after stripping trailing punctuation and then trailing
whitespace, the text ends with `w` (all command words end in a letter), with
the character before that suffix non-word in the single-word case.  The
source tests it against the lowercased trimmed transcript. -/
def endsWithCmdWord (nt w : L) : Bool :=
  let t2 := dropWhileEnd Char.isWhitespace (dropWhileEnd (fun c => punctChars.contains c) nt)
  if w.contains ' ' then isSuffixL w t2
  else
    isSuffixL w t2 &&
      (match (t2.take (t2.length - w.length)).getLast? with
       | none => true
       | some c => !isWordChar c)

/-- Actions of `processFinalTranscription`, in program order: text injection
(`textInjector.typeText`), command execution (`textInjector.executeCommand`),
the emitted events, and the nested controller calls in the trigger-word
paths (kept as markers rather than inlined).  Indicator updates, logging and
the inter-command delay are not modelled. -/
inductive Act where
  | typeText : L → Act
  | execCmd : L → Act
  | emitCommand : List L → Act
  | emitText : L → Act
  | emitTranslated : Act
  | emitTriggerActivated : Act
  | emitTriggerDeactivated : Act
  | ctrlStopCall : Act
  | ctrlStopBackgroundCall : Act
  | ctrlStartCall : Act
deriving DecidableEq, Repr

/-- The bottom-of-function plain typing: prefix a single space when the
accumulator is non-empty, type, append to the accumulator, emit `text`. -/
def plainType (text : L) (buffer : L) : L × List Act :=
  let textToType := if buffer = [] then text else ' ' :: text
  (buffer ++ textToType, [Act.typeText textToType, Act.emitText text])

/-- The trailing-command-word scan (the `for (const commandWord of
commandWords)` loop), falling through to `plainType` when no word matches.
On a match: `lastIndexOf` of the word in the normalized text gives the cut
position (the `continue` on a failed `lastIndexOf` is the source's safety
check); the original text before the cut is trimmed and typed (with the
accumulator space rule), the word's parsed command is executed, and the
accumulator is cleared after an `enter`.  A word whose parse is not a
command falls through to the next word. -/
def scanCmdWords (text nt buffer : L) : List L → L × List Act
  | [] => plainType text buffer
  | w :: ws =>
    if endsWithCmdWord nt w then
      match lastIndexOfL w nt with
      | none => scanCmdWords text nt buffer ws
      | some idx =>
        match parseCmd w with
        | some tok =>
          let before := trimL (text.take idx)
          let typed : L × List Act :=
            if before ≠ [] then
              let textToType := if buffer = [] then before else ' ' :: before
              (buffer ++ textToType, [Act.typeText textToType])
            else (buffer, [])
          (if tok = "enter".toList then [] else typed.1,
           typed.2 ++ [Act.execCmd tok, Act.emitCommand [tok]])
        | none => scanCmdWords text nt buffer ws
    else scanCmdWords text nt buffer ws

/-- The standard (fallback) processing when voice commands are enabled:
first the whole-transcript command check, then the trailing-word scan. -/
def fallbackProcess (text : L) (buffer : L) : L × List Act :=
  match parseCmd text with
  | some tok =>
    (if tok = "enter".toList then [] else buffer,
     [Act.execCmd tok, Act.emitCommand [tok]])
  | none => scanCmdWords text (trimL (toLowerL text)) buffer commandWords

/-- The command loop of the CrewAI branch: execute each command in order,
clearing the accumulator after any command whose lowercasing is `enter`. -/
def execLoop (buffer : L) : List L → L × List Act
  | [] => (buffer, [])
  | c :: cs =>
    let b1 := if toLowerL c = "enter".toList then [] else buffer
    let rest := execLoop b1 cs
    (rest.1, Act.execCmd c :: rest.2)

/-- The CrewAI branch of `processFinalTranscription`: type the extracted
text (if non-blank) with the accumulator space rule, run the commands in
order, emit `command` (when any) and `text` (the extracted text, or the
transcript when the extraction text is empty). -/
def crewProcess (text : L) (a : Analysis) (buffer : L) : L × List Act :=
  let typed : L × List Act :=
    if a.text ≠ [] ∧ trimL a.text ≠ [] then
      let textToType := if buffer = [] then a.text else ' ' :: a.text
      (buffer ++ textToType, [Act.typeText textToType])
    else (buffer, [])
  let ran : L × List Act :=
    if a.commands ≠ [] then
      let l := execLoop typed.1 a.commands
      (l.1, l.2 ++ [Act.emitCommand a.commands])
    else (typed.1, [])
  (ran.1, typed.2 ++ ran.2 ++ [Act.emitText (if a.text = [] then text else a.text)])

/-- Result of the external translation service for this transcript:
`none` when `translateToEnglish` threw (the catch keeps the original text);
otherwise the detection outcome. -/
structure TransRes where
  isEnglish : Bool
  translatedText : L
deriving DecidableEq, Repr

/-- Environment of one `processFinalTranscription` call: configuration flags
and the responses of the external collaborators (translation service and
CrewAI agent) for this transcript. -/
structure PEnv where
  voiceCommands : Bool
  crewEnabled : Bool
  translationEnabled : Bool
  transResult : Option TransRes
  crewAnalysis : Analysis
  trig : TrigCfg
deriving Repr

/-- Is this detection result a deactivation? -/
def isDeactivate (r : Option TrigRes) : Bool :=
  match r with
  | some res => res.resType = TrigType.deactivate
  | none => false

/-- The translation pass of `processFinalTranscription`: when enabled and
the service detects non-English, continue with the translated text and emit
`translated`; on a service failure (or English input) continue with the
original text. -/
def translateStage (env : PEnv) (text0 : L) : L × List Act :=
  if env.translationEnabled then
    match env.transResult with
    | some r =>
      if !r.isEnglish then (r.translatedText, [Act.emitTranslated]) else (text0, [])
    | none => (text0, [])
  else (text0, [])

/-- The extraction-and-injection stage: the CrewAI branch when the agent is
enabled, else the voice-command fallback, else plain typing. -/
def pipeline (env : PEnv) (text b : L) : L × List Act :=
  if env.crewEnabled then crewProcess text env.crewAnalysis b
  else if env.voiceCommands then fallbackProcess text b
  else plainType text b

/-- `processFinalTranscription(text, isFinal)`.  Interim guard; blank-text
guard; trigger-word routing in `background_listening` (activate restarts the
controller, deactivate stops it, anything else is dropped); the deactivate
check while `listening`; optional translation (on failure the original text
is kept); then the CrewAI branch, or the voice-command fallback, or plain
typing.  Returns the new controller state (only `finalTextBuffer` is written
by this method; the nested `stop`/`start` calls of the trigger paths are
kept as trace markers) and the ordered action trace. -/
def processFinal (env : PEnv) (st : CState) (text0 : L) (isFinal : Bool) :
    CState × List Act :=
  if !isFinal then (st, [])
  else if trimL text0 = [] then (st, [])
  else if st.mode = Mode.background_listening ∧ env.trig.enabled then
    match detect env.trig text0 with
    | some r =>
      match r.resType with
      | TrigType.activate =>
        (st, [Act.ctrlStopBackgroundCall, Act.ctrlStartCall, Act.emitTriggerActivated])
      | TrigType.deactivate => (st, [Act.ctrlStopCall, Act.emitTriggerDeactivated])
    | none => (st, [])
  else if st.mode = Mode.listening ∧ env.trig.enabled
          ∧ isDeactivate (detect env.trig text0) then
    (st, [Act.ctrlStopCall, Act.emitTriggerDeactivated])
  else
    let translated := translateStage env text0
    let done := pipeline env translated.1 st.finalTextBuffer
    ({ st with finalTextBuffer := done.1 }, translated.2 ++ done.2)

/-- The command tokens executed in a trace, in order. -/
def execCmds (acts : List Act) : List L :=
  acts.filterMap (fun a => match a with | Act.execCmd c => some c | _ => none)

/-- The text fragments injected in a trace, in order. -/
def typedTexts (acts : List Act) : List L :=
  acts.filterMap (fun a => match a with | Act.typeText t => some t | _ => none)

/-- Lift the one-space prefix over a trace: what a run with a non-empty
accumulator types is the space-prefixed version of what the same run with an
empty accumulator types; all other actions are unchanged. -/
def spacify (a : Act) : Act :=
  match a with
  | Act.typeText t => Act.typeText (' ' :: t)
  | other => other

/-! ### start / stop / handleError (controller state machine) -/

/-- The collaborator verdicts consulted by `start()`:
`authService.isUserAuthenticated()`, `authService.checkPermission(stt)` and
`tokenTracker.trackDeepgramUsage().allowed`. -/
structure AuthEnv where
  authenticated : Bool
  sttPermission : Bool
  quotaAllowed : Bool
deriving DecidableEq, Repr

/-- Controller-level actions of `start`/`stop`: emitted events plus the
collaborator calls that allocate or release the session and microphone.
Console warnings and indicator updates are not modelled. -/
inductive CAct where
  | emitAuthenticationRequired : CAct
  | emitActivationRequired : CAct
  | emitTokenLimitExceeded : CAct
  | emitError : CAct
  | emitStateChange : Mode → Mode → CAct
  | emitStarted : CAct
  | emitStopped : CAct
  | emitBackgroundListeningStopped : CAct
  | micStart : CAct
  | micStop : CAct
  | sessionStart : CAct
  | sessionStop : CAct
deriving DecidableEq, Repr

/-- `stop()`: a warned no-op from `idle` (no events); otherwise stop the
microphone, stop the STT session, transition to `idle` and emit `stopped`.
The text accumulator is not touched. -/
def ctrlStop (s : CState) : CState × List CAct :=
  if s.mode = Mode.idle then (s, [])
  else ({ s with mode := Mode.idle },
        [CAct.micStop, CAct.sessionStop,
         CAct.emitStateChange s.mode Mode.idle, CAct.emitStopped])

/-- `handleError(error)`: transition to `error`, emit the error, then the
best-effort cleanup `stop()`. -/
def handleError (s : CState) : CState × List CAct :=
  let s1 : CState := { s with mode := Mode.error }
  let stopped := ctrlStop s1
  (stopped.1,
   CAct.emitStateChange s.mode Mode.error :: CAct.emitError :: stopped.2)

/-- `stopBackgroundListening()`: no-op unless background listening is
active; otherwise stop the microphone and session, clear the flag,
transition to `idle` and emit `backgroundListeningStopped`. -/
def stopBackgroundL (s : CState) : CState × List CAct :=
  if !s.backgroundListening then (s, [])
  else ({ s with backgroundListening := false, mode := Mode.idle },
        [CAct.micStop, CAct.sessionStop,
         CAct.emitStateChange s.mode Mode.idle,
         CAct.emitBackgroundListeningStopped])

/-- `start()`: a warned no-op while already `listening`.  Otherwise the three
precondition checks run in order — authentication, STT entitlement, token
quota — and the first failure emits its distinct signal and throws; the
catch routes the throw through `handleError`.  On success: stop background
listening if active, transition to `listening`, reset the text buffers,
start the STT session, start the microphone, emit `started`. -/
def ctrlStart (env : AuthEnv) (s : CState) : CState × List CAct :=
  if s.mode = Mode.listening then (s, [])
  else if !env.authenticated then
    let h := handleError s
    (h.1, CAct.emitAuthenticationRequired :: h.2)
  else if !env.sttPermission then
    let h := handleError s
    (h.1, CAct.emitActivationRequired :: h.2)
  else if !env.quotaAllowed then
    let h := handleError s
    (h.1, CAct.emitTokenLimitExceeded :: h.2)
  else
    let bgStopped : CState × List CAct :=
      if s.backgroundListening then stopBackgroundL s else (s, [])
    let s1 := bgStopped.1
    ({ s1 with mode := Mode.listening, finalTextBuffer := [] },
     bgStopped.2 ++ [CAct.emitStateChange s1.mode Mode.listening,
                     CAct.sessionStart, CAct.micStart, CAct.emitStarted])

/-! ## Concrete configurations used in the theorems -/

/-- The normalized text `detect` compares against. -/
def detectNorm (cfg : TrigCfg) (text : L) : L :=
  if cfg.caseSensitive then trimL text else toLowerL (trimL text)

/-- The normalized deactivate phrase of `detect`. -/
def detectNormDeact (cfg : TrigCfg) : L :=
  if cfg.caseSensitive then cfg.deactivatePhrase else toLowerL cfg.deactivatePhrase

/-- The normalized activate word of `detect`. -/
def detectNormTrig (cfg : TrigCfg) : L :=
  if cfg.caseSensitive then cfg.triggerWord else toLowerL cfg.triggerWord

/-- The default trigger configuration of the source (`triggerWord: sana`,
`deactivatePhrase: sana close`, enabled, case-insensitive). -/
def sanaCfg : TrigCfg :=
  { enabled := true, caseSensitive := false,
    triggerWord := "sana".toList, deactivatePhrase := "sana close".toList }

/-- Environment for the fallback grammar: voice commands on, CrewAI off,
translation off, trigger gate off. -/
def envFallback : PEnv :=
  { voiceCommands := true, crewEnabled := false, translationEnabled := false,
    transResult := none, crewAnalysis := { text := [], commands := [] },
    trig := { enabled := false, caseSensitive := false,
              triggerWord := [], deactivatePhrase := [] } }

/-- A listening controller with an empty accumulator. -/
def stListening : CState :=
  { mode := Mode.listening, backgroundListening := false, finalTextBuffer := [] }

/-- A controller mid-pipeline with a non-empty accumulator. -/
def stWithBuffer : CState :=
  { mode := Mode.processing, backgroundListening := false,
    finalTextBuffer := "Hi".toList }

/-! # Theorems -/

/-- Helper: an event that starts no flush and is not a `stopSession` call
keeps the session connected and keeps every buffered chunk buffered. -/
theorem benign_step_preserves (s : GState) (e : GEv) (c : Chunk)
    (hf : flushStarted s e = none) (hs : notStop e = true)
    (hc : s.connected = true) (hb : c ∈ s.buffer) :
    (stepEv s e).1.connected = true ∧ c ∈ (stepEv s e).1.buffer := by
  cases e with
  | start =>
    constructor <;> simp [stepEv, stepStart, hc, hb]
  | send c' elapsed =>
    by_cases he : c' = []
    · constructor <;> simp [stepEv, stepSend, hc, he, hb]
    · rcases Bool.eq_false_or_eq_true (elapsed && !s.processing) with hcond | hcond
      · exfalso
        cases elapsed with
        | false => simp at hcond
        | true =>
          have h2 : s.processing = false := by simpa using hcond
          simp [flushStarted, hc, he, h2] at hf
      · constructor <;> simp [stepEv, stepSend, hc, he, hcond, hb]
  | flushEnd ok =>
    rcases Bool.eq_false_or_eq_true s.processing with hp | hp <;>
      constructor <;> simp [stepEv, stepFlushEnd, hp, hc, hb]
  | stop ok => simp [notStop] at hs

/-- Helper: a benign event run (no `stopSession`, no flush started) keeps the
session connected and every buffered chunk buffered. -/
theorem benignRun_preserves (evs : List GEv) :
    ∀ (s : GState) (c : Chunk), benignRun s evs = true → s.connected = true →
      c ∈ s.buffer →
      (runG s evs).1.connected = true ∧ c ∈ (runG s evs).1.buffer := by
  induction evs with
  | nil => intro s c _ hc hb; exact ⟨hc, hb⟩
  | cons e es ih =>
    intro s c hben hc hb
    simp only [benignRun, Bool.and_eq_true] at hben
    obtain ⟨⟨hf0, hs⟩, hrest⟩ := hben
    have hf : flushStarted s e = none := Option.isNone_iff_eq_none.mp hf0
    have step := benign_step_preserves s e c hf hs hc hb
    have : runG s (e :: es) = ((runG (stepEv s e).1 es).1,
        (stepEv s e).2 ++ (runG (stepEv s e).1 es).2) := by
      simp [runG]
    rw [this]
    exact ih (stepEv s e).1 c hrest step.1 step.2

/-- Helper: a flush started from a state whose buffer holds `c` includes `c`
in its blob. -/
theorem flushStarted_mem (s : GState) (e : GEv) (c : Chunk) (B : List Chunk)
    (hb : c ∈ s.buffer) (h : flushStarted s e = some B) : c ∈ B := by
  cases e with
  | start => simp [flushStarted] at h
  | send c' elapsed =>
    simp only [flushStarted] at h
    by_cases hcond : (s.connected && (c' ≠ [] : Bool) && elapsed && !s.processing) = true
    · rw [if_pos hcond] at h
      cases h
      exact List.mem_append_left _ hb
    · rw [if_neg hcond] at h; cases h
  | flushEnd ok => simp [flushStarted] at h
  | stop ok =>
    simp only [flushStarted] at h
    by_cases hcond : (s.connected && (s.buffer ≠ [] : Bool) && !s.processing) = true
    · rw [if_pos hcond] at h
      cases h
      exact hb
    · rw [if_neg hcond] at h; cases h

/-- Claim C1 (corrected). While a flush is in flight, a chunk accepted by
`sendAudio` is not added to the in-flight flush's blob (that snapshot was
fixed, and the buffer was cleared, before the network call), and as long as
`stopSession` is not called and no other flush starts, the chunk stays
buffered, so the next flush that starts — whether triggered by a later
`sendAudio` or by the final flush of `stopSession` — includes it in its blob.
(The unconditional claim fails: see the counterexample, where `stopSession`
during the in-flight flush discards the chunk.) -/
theorem C1_no_audio_loss (s : GState) (c : Chunk) (elapsed : Bool)
    (hp : s.processing = true) (hc : s.connected = true) (hne : c ≠ [])
    (hfresh : c ∉ s.pending) :
    (stepSend c elapsed s).2 = true ∧
    (stepSend c elapsed s).1.pending = s.pending ∧
    c ∉ (stepSend c elapsed s).1.pending ∧
    ∀ (evs : List GEv) (e : GEv) (B : List Chunk),
      benignRun (stepSend c elapsed s).1 evs = true →
      flushStarted (runG (stepSend c elapsed s).1 evs).1 e = some B →
      c ∈ B := by
  have hstep : stepSend c elapsed s = ({ s with buffer := s.buffer ++ [c] }, true) := by
    simp [stepSend, hc, hne, hp]
  refine ⟨by rw [hstep], by rw [hstep], by rw [hstep]; exact hfresh, ?_⟩
  intro evs e B hben hflush
  rw [hstep] at hben hflush
  have hmem : c ∈ ({ s with buffer := s.buffer ++ [c] } : GState).buffer := by
    simp
  have run := benignRun_preserves evs { s with buffer := s.buffer ++ [c] } c hben hc hmem
  exact flushStarted_mem _ e c B run.2 hflush

/-- Witness for C1: a concrete in-flight flush (blob `[[9]]`), a chunk `[2]`
accepted during it, the flush completes, and the next flush (tripped by
sending `[3]` after the window elapses) contains `[2]`. -/
theorem C1_no_audio_loss_witness :
    (stepSend [2] true ⟨true, [], true, [[9]]⟩).2 = true ∧
    (stepSend [2] true ⟨true, [], true, [[9]]⟩).1.pending = [[9]] ∧
    flushStarted (runG (stepSend [2] true ⟨true, [], true, [[9]]⟩).1
        [GEv.flushEnd true]).1 (GEv.send [3] true) = some [[2], [3]] ∧
    ([2] : Chunk) ∈ [([2] : Chunk), [3]] := by
  have h := C1_no_audio_loss ⟨true, [], true, [[9]]⟩ [2] true rfl rfl
    (by decide) (by decide)
  refine ⟨h.1, h.2.1, by decide, ?_⟩
  exact h.2.2.2 [GEv.flushEnd true] (GEv.send [3] true) [[2], [3]]
    (by decide) (by decide)

/-- Counterexample to C1 as stated: chunk `[2]` is accepted while the flush
of blob `[[1]]` is in flight, but `stopSession` is called before that flush
completes; `stopSession` sees `isProcessing` set, so its
`await this.processBuffer()` returns without flushing and
`this.audioBuffer = []` discards `[2]`.  After a new session starts, the next
flush's blob is `[[3]]`, which does not contain `[2]` — so a chunk accepted
during an in-flight flush is not always present in the next flush's blob. -/
theorem C1_counterexample :
    (runG initG [GEv.start, GEv.send [1] true]).1.processing = true ∧
    (runG initG [GEv.start, GEv.send [1] true]).1.pending = [[1]] ∧
    (stepSend [2] false (runG initG [GEv.start, GEv.send [1] true]).1).2 = true ∧
    firstFlush (stepSend [2] false (runG initG [GEv.start, GEv.send [1] true]).1).1
      [GEv.stop true, GEv.flushEnd true, GEv.start, GEv.send [3] true]
      = some [[3]] ∧
    ([2] : Chunk) ∉ [([3] : Chunk)] := by
  decide

/-- Claim C7 (corrected).  When the transcription backend call of a flush
fails, the inner catch only logs and cleans the temp file: no `error` event
is emitted (the trace of the failing completion is empty), the snapshot for
that window is discarded and never retried, `isProcessing` is cleared, the
session remains connected with its current buffer intact, and a subsequent
`sendAudio` is still accepted. -/
theorem C7_failed_flush (s : GState) (c : Chunk)
    (hp : s.processing = true) (hc : s.connected = true) (hne : c ≠ []) :
    (stepFlushEnd false s).2 = [] ∧
    (stepFlushEnd false s).1.connected = true ∧
    (stepFlushEnd false s).1.processing = false ∧
    (stepFlushEnd false s).1.pending = [] ∧
    (stepFlushEnd false s).1.buffer = s.buffer ∧
    (stepSend c false (stepFlushEnd false s).1).2 = true := by
  have h : stepFlushEnd false s = ({ s with processing := false, pending := [] }, []) := by
    simp [stepFlushEnd, hp]
  rw [h]
  refine ⟨rfl, hc, rfl, rfl, rfl, ?_⟩
  simp [stepSend, hc, hne]

/-- Witness for C7: a failing flush over blob `[[5]]` with chunk `[[7]]`
still buffered; chunk `[1]` is accepted afterwards. -/
theorem C7_failed_flush_witness :
    (stepFlushEnd false ⟨true, [[7]], true, [[5]]⟩).2 = [] ∧
    (stepFlushEnd false ⟨true, [[7]], true, [[5]]⟩).1.connected = true ∧
    (stepFlushEnd false ⟨true, [[7]], true, [[5]]⟩).1.buffer = [[7]] ∧
    (stepSend [1] false (stepFlushEnd false ⟨true, [[7]], true, [[5]]⟩).1).2 = true := by
  have h := C7_failed_flush ⟨true, [[7]], true, [[5]]⟩ [1] rfl rfl (by decide)
  exact ⟨h.1, h.2.1, h.2.2.2.2.1, h.2.2.2.2.2⟩

/-- Counterexample to C7 as stated: the claim says a failed backend call is
"emitted as an error event", but the completion of a failed flush (in-flight
blob `[[5]]`) emits nothing at all — in particular no `error` event.  The
`error` emission in `processBuffer` sits in the outer catch, which the inner
catch around the transcription call prevents from seeing backend failures. -/
theorem C7_counterexample :
    (⟨true, [], true, [[5]]⟩ : GState).processing = true ∧
    (stepFlushEnd false ⟨true, [], true, [[5]]⟩).2 = [] ∧
    GEmit.errorEv ∉ (stepFlushEnd false ⟨true, [], true, [[5]]⟩).2 := by
  decide

/-- Claim C8 (confirmed).  Calling `stopSession()` twice on an active
session: the second call sees `isConnected === false` and returns
immediately (no state change, no events); across both calls exactly one
`close` event and at most one final-flush `transcription` event are
emitted. -/
theorem C8_stop_idempotent (s : GState) (ok1 ok2 : Bool)
    (hc : s.connected = true) :
    (stepStop ok2 (stepStop ok1 s).1).2 = [] ∧
    (stepStop ok2 (stepStop ok1 s).1).1 = (stepStop ok1 s).1 ∧
    closeCount ((stepStop ok1 s).2 ++ (stepStop ok2 (stepStop ok1 s).1).2) = 1 ∧
    transCount ((stepStop ok1 s).2 ++ (stepStop ok2 (stepStop ok1 s).1).2) ≤ 1 := by
  have h1 : (stepStop ok1 s).1.connected = false := by
    simp [stepStop, hc]
  have hgen : ∀ X : GState, X.connected = false → stepStop ok2 X = (X, []) := by
    intro X hX
    simp [stepStop, hX]
  have h2 : stepStop ok2 (stepStop ok1 s).1 = ((stepStop ok1 s).1, []) :=
    hgen _ h1
  refine ⟨by rw [h2], by rw [h2], ?_, ?_⟩ <;>
  · rw [h2]
    simp only [stepStop, hc, Bool.not_true, List.append_nil]
    split_ifs <;> simp_all [closeCount, transCount]

/-- Witness for C8: an active session with one buffered chunk. -/
theorem C8_stop_idempotent_witness :
    (stepStop true (stepStop true ⟨true, [[1]], false, []⟩).1).2 = [] ∧
    closeCount ((stepStop true ⟨true, [[1]], false, []⟩).2 ++
        (stepStop true (stepStop true ⟨true, [[1]], false, []⟩).1).2) = 1 ∧
    transCount ((stepStop true ⟨true, [[1]], false, []⟩).2 ++
        (stepStop true (stepStop true ⟨true, [[1]], false, []⟩).1).2) ≤ 1 := by
  have h := C8_stop_idempotent ⟨true, [[1]], false, []⟩ true true rfl
  exact ⟨h.1, h.2.2.1, h.2.2.2⟩

/-- Helper: byte values of the four ASCII tags. -/
theorem asciiL_RIFF : asciiL "RIFF" = [82, 73, 70, 70] := by decide

/-- Helper: byte values of the WAVE tag. -/
theorem asciiL_WAVE : asciiL "WAVE" = [87, 65, 86, 69] := by decide

/-- Helper: byte values of the fmt tag. -/
theorem asciiL_fmt : asciiL "fmt " = [102, 109, 116, 32] := by decide

/-- Helper: byte values of the data tag. -/
theorem asciiL_data : asciiL "data" = [100, 97, 116, 97] := by decide

/-- Helper: `createWavBuffer` written out as an explicit 44-byte header in
front of the PCM payload. -/
theorem createWavBuffer_eq (pcm : List Nat) :
    createWavBuffer pcm =
      [82, 73, 70, 70,
       (36 + pcm.length) % 256, (36 + pcm.length) / 256 % 256,
       (36 + pcm.length) / 65536 % 256, (36 + pcm.length) / 16777216 % 256,
       87, 65, 86, 69, 102, 109, 116, 32, 16, 0, 0, 0, 1, 0, 1, 0,
       128, 62, 0, 0, 0, 125, 0, 0, 2, 0, 16, 0, 100, 97, 116, 97,
       pcm.length % 256, pcm.length / 256 % 256,
       pcm.length / 65536 % 256, pcm.length / 16777216 % 256] ++ pcm := by
  simp [createWavBuffer, asciiL_RIFF, asciiL_WAVE, asciiL_fmt, asciiL_data,
        u16LE, u32LE]

/-- Claim C10 (confirmed).  For a PCM input small enough for the 32-bit size
fields (JS `writeUInt32LE` throws otherwise), `createWavBuffer` returns a
buffer of length input + 44 whose first 44 bytes are a RIFF/WAVE header
declaring PCM format 1, one channel, a 16000 Hz sample rate, 16 bits per
sample and a data-chunk size equal to the input length, followed by the
input bytes unchanged. -/
theorem C10_wav_header (pcm : List Nat) (h : pcm.length + 36 < 4294967296) :
    (createWavBuffer pcm).length = pcm.length + 44 ∧
    (createWavBuffer pcm).take 4 = asciiL "RIFF" ∧
    ((createWavBuffer pcm).drop 8).take 4 = asciiL "WAVE" ∧
    ((createWavBuffer pcm).drop 12).take 4 = asciiL "fmt " ∧
    readU16LE (createWavBuffer pcm) 20 = 1 ∧
    readU16LE (createWavBuffer pcm) 22 = 1 ∧
    readU32LE (createWavBuffer pcm) 24 = 16000 ∧
    readU16LE (createWavBuffer pcm) 34 = 16 ∧
    ((createWavBuffer pcm).drop 36).take 4 = asciiL "data" ∧
    readU32LE (createWavBuffer pcm) 40 = pcm.length ∧
    (createWavBuffer pcm).drop 44 = pcm := by
  rw [createWavBuffer_eq]
  refine ⟨?_, ?_, ?_, ?_, ?_, ?_, ?_, ?_, ?_, ?_, ?_⟩
  · simp
  · simp [asciiL_RIFF]
  · simp [asciiL_WAVE]
  · simp [asciiL_fmt]
  · simp [readU16LE, List.getD]
  · simp [readU16LE, List.getD]
  · simp [readU32LE, List.getD]
  · simp [readU16LE, List.getD]
  · simp [asciiL_data]
  · simp only [readU16LE, readU32LE, List.cons_append, List.getD_cons_succ,
      List.getD_cons_zero]
    omega
  · simp

/-- Witness for C10 at the concrete PCM payload `[7, 8, 9]`. -/
theorem C10_wav_header_witness :
    ([7, 8, 9] : List Nat).length + 36 < 4294967296 ∧
    (createWavBuffer [7, 8, 9]).length = ([7, 8, 9] : List Nat).length + 44 ∧
    readU32LE (createWavBuffer [7, 8, 9]) 40 = ([7, 8, 9] : List Nat).length ∧
    (createWavBuffer [7, 8, 9]).drop 44 = [7, 8, 9] := by
  have h := C10_wav_header [7, 8, 9] (by decide)
  exact ⟨by decide, h.1, h.2.2.2.2.2.2.2.2.2.1, h.2.2.2.2.2.2.2.2.2.2⟩

/-- Claim C3 (confirmed).  `CrewAIAgent.analyze` is a total function of the
transcript and the external outcomes, and on any backend failure (the chat
call threw), any failure to locate a JSON object in the response, or any
`JSON.parse` failure, it returns the original transcript as the text with an
empty command list — the catch block — instead of raising, so extraction
never blocks typing. -/
theorem C3_analyze_fallback (transcript : L) (backend : Option L)
    (parse : L → Option Json) (ht : trimL transcript ≠ [])
    (hfail : analyzeFailed backend parse = true) :
    analyze true transcript backend parse = { text := transcript, commands := [] } := by
  cases backend with
  | none => simp [analyze, ht]
  | some raw =>
    simp only [analyzeFailed] at hfail
    cases hext : extractJsonObject (stripFences (trimL raw)) with
    | none => simp [analyze, ht, hext]
    | some jt =>
      rw [hext] at hfail
      have hp : parse jt = none := Option.isNone_iff_eq_none.mp hfail
      simp [analyze, ht, hext, hp]

/-- Witness for C3: a non-blank transcript and a backend response with no
JSON object in it (and a `JSON.parse` that always fails). -/
theorem C3_analyze_fallback_witness :
    trimL "hello world".toList ≠ [] ∧
    analyzeFailed (some "no json here at all".toList) (fun _ => none) = true ∧
    analyze true "hello world".toList (some "no json here at all".toList)
        (fun _ => none)
      = { text := "hello world".toList, commands := [] } := by
  refine ⟨by decide, by decide, ?_⟩
  exact C3_analyze_fallback "hello world".toList (some "no json here at all".toList)
    (fun _ => none) (by decide) (by decide)

/-- Claim C4 (confirmed).  `detect` checks the deactivate phrase first via
substring containment — when the normalized text contains the normalized
deactivate phrase, the result is a deactivation whatever the activate word
would say — and only then the activate word, via a word-boundary match.
With the default configuration (activate word `sana`, deactivate phrase
`sana close`), `sana close the app` contains the activate word as a bounded
word yet detects as a deactivation, and `sanatorium is closed` detects as
nothing because `sana` occurs only inside a longer word. -/
theorem C4_trigger_gate :
    (∀ (cfg : TrigCfg) (text : L), cfg.enabled = true → text ≠ [] →
       containsPhrase (detectNorm cfg text) (detectNormDeact cfg) = true →
       detect cfg text
         = some { resType := TrigType.deactivate, matched := cfg.deactivatePhrase }) ∧
    (∀ (cfg : TrigCfg) (text : L), cfg.enabled = true → text ≠ [] →
       containsPhrase (detectNorm cfg text) (detectNormDeact cfg) = false →
       containsWord (detectNorm cfg text) (detectNormTrig cfg) = true →
       detect cfg text
         = some { resType := TrigType.activate, matched := cfg.triggerWord }) ∧
    detect sanaCfg "sana close the app".toList
      = some { resType := TrigType.deactivate, matched := "sana close".toList } ∧
    containsWord (detectNorm sanaCfg "sana close the app".toList)
      (detectNormTrig sanaCfg) = true ∧
    detect sanaCfg "sanatorium is closed".toList = none := by
  refine ⟨?_, ?_, by decide, by decide, by decide⟩
  · intro cfg text hen hne hsub
    simp only [detectNorm, detectNormDeact] at hsub
    simp [detect, hen, hne, hsub]
  · intro cfg text hen hne hsub hword
    simp only [detectNorm, detectNormDeact, detectNormTrig] at hsub hword
    simp [detect, hen, hne, hsub, hword]

/-- Witness for C4: the deactivate-first conjunct applied to the default
configuration and the spec's example input. -/
theorem C4_trigger_gate_witness :
    sanaCfg.enabled = true ∧
    ("sana close the app".toList : L) ≠ [] ∧
    containsPhrase (detectNorm sanaCfg "sana close the app".toList)
      (detectNormDeact sanaCfg) = true ∧
    detect sanaCfg "sana close the app".toList
      = some { resType := TrigType.deactivate, matched := "sana close".toList } := by
  refine ⟨by decide, by decide, by decide, ?_⟩
  exact C4_trigger_gate.1 sanaCfg "sana close the app".toList (by decide)
    (by decide) (by decide)

/-- Claim C6 (confirmed).  When `start()` is called (outside the
already-listening no-op), the three precondition checks run in order with
each failure short-circuiting with its distinct signal: a non-authenticated
caller gets `authenticationRequired` (and neither of the other two signals),
an authenticated caller without the STT entitlement gets
`activationRequired`, and an entitled caller over quota gets
`tokenLimitExceeded`; in every failure case neither the transcription
session nor the microphone is started. -/
theorem C6_start_preconditions (env : AuthEnv) (s : CState)
    (hmode : s.mode ≠ Mode.listening) :
    (env.authenticated = false →
      CAct.emitAuthenticationRequired ∈ (ctrlStart env s).2 ∧
      CAct.emitActivationRequired ∉ (ctrlStart env s).2 ∧
      CAct.emitTokenLimitExceeded ∉ (ctrlStart env s).2 ∧
      CAct.sessionStart ∉ (ctrlStart env s).2 ∧
      CAct.micStart ∉ (ctrlStart env s).2) ∧
    (env.authenticated = true → env.sttPermission = false →
      CAct.emitActivationRequired ∈ (ctrlStart env s).2 ∧
      CAct.emitAuthenticationRequired ∉ (ctrlStart env s).2 ∧
      CAct.emitTokenLimitExceeded ∉ (ctrlStart env s).2 ∧
      CAct.sessionStart ∉ (ctrlStart env s).2 ∧
      CAct.micStart ∉ (ctrlStart env s).2) ∧
    (env.authenticated = true → env.sttPermission = true →
      env.quotaAllowed = false →
      CAct.emitTokenLimitExceeded ∈ (ctrlStart env s).2 ∧
      CAct.emitAuthenticationRequired ∉ (ctrlStart env s).2 ∧
      CAct.emitActivationRequired ∉ (ctrlStart env s).2 ∧
      CAct.sessionStart ∉ (ctrlStart env s).2 ∧
      CAct.micStart ∉ (ctrlStart env s).2) := by
  refine ⟨?_, ?_, ?_⟩
  · intro h1
    simp [ctrlStart, handleError, ctrlStop, hmode, h1]
  · intro h1 h2
    simp [ctrlStart, handleError, ctrlStop, hmode, h1, h2]
  · intro h1 h2 h3
    simp [ctrlStart, handleError, ctrlStop, hmode, h1, h2, h3]

/-- Witness for C6: an unauthenticated caller starting from `idle`. -/
theorem C6_start_preconditions_witness :
    (⟨Mode.idle, false, []⟩ : CState).mode ≠ Mode.listening ∧
    (⟨false, true, true⟩ : AuthEnv).authenticated = false ∧
    CAct.emitAuthenticationRequired
      ∈ (ctrlStart ⟨false, true, true⟩ ⟨Mode.idle, false, []⟩).2 ∧
    CAct.sessionStart ∉ (ctrlStart ⟨false, true, true⟩ ⟨Mode.idle, false, []⟩).2 ∧
    CAct.micStart ∉ (ctrlStart ⟨false, true, true⟩ ⟨Mode.idle, false, []⟩).2 := by
  have h := (C6_start_preconditions ⟨false, true, true⟩ ⟨Mode.idle, false, []⟩
    (by decide)).1 rfl
  exact ⟨by decide, rfl, h.1, h.2.2.2.1, h.2.2.2.2⟩

/-- Claim C9 (confirmed).  `stop()` called in the `idle` state returns
before touching anything: the state is unchanged and no events are emitted.
`start()` called in the `listening` state likewise returns after only a
console warning: no state change, no events, no session restart. -/
theorem C9_noop_transitions :
    (∀ s : CState, s.mode = Mode.idle → ctrlStop s = (s, [])) ∧
    (∀ (env : AuthEnv) (s : CState), s.mode = Mode.listening →
      ctrlStart env s = (s, [])) := by
  constructor
  · intro s h
    simp [ctrlStop, h]
  · intro env s h
    simp [ctrlStart, h]

/-- Witness for C9 at concrete states. -/
theorem C9_noop_transitions_witness :
    ctrlStop ⟨Mode.idle, false, "abc".toList⟩ = (⟨Mode.idle, false, "abc".toList⟩, []) ∧
    ctrlStart ⟨true, true, true⟩ ⟨Mode.listening, false, []⟩
      = (⟨Mode.listening, false, []⟩, []) := by
  exact ⟨C9_noop_transitions.1 ⟨Mode.idle, false, "abc".toList⟩ rfl,
         C9_noop_transitions.2 ⟨true, true, true⟩ ⟨Mode.listening, false, []⟩ rfl⟩

/-- Helper: the command loop emits exactly the commands it is given. -/
theorem execLoop_snd (cs : List L) : ∀ b, (execLoop b cs).2 = cs.map Act.execCmd := by
  induction cs with
  | nil => intro b; simp [execLoop]
  | cons c cs ih => intro b; simp [execLoop, ih]

/-- Helper: the command loop either keeps the accumulator or clears it. -/
theorem execLoop_fst_cases (cs : List L) :
    ∀ b, (execLoop b cs).1 = b ∨ (execLoop b cs).1 = [] := by
  induction cs with
  | nil => intro b; left; simp [execLoop]
  | cons c cs ih =>
    intro b
    show (execLoop (if toLowerL c = "enter".toList then [] else b) cs).1 = b ∨
      (execLoop (if toLowerL c = "enter".toList then [] else b) cs).1 = []
    by_cases hc : toLowerL c = "enter".toList
    · rw [if_pos hc]
      rcases ih [] with h | h
      · right; exact h
      · right; exact h
    · rw [if_neg hc]
      exact ih b

/-- Helper: after an `enter` in the command list the accumulator is empty. -/
theorem execLoop_enter (cs : List L) :
    ∀ b, "enter".toList ∈ cs → (execLoop b cs).1 = [] := by
  induction cs with
  | nil => intro b h; simp at h
  | cons c cs ih =>
    intro b h
    show (execLoop (if toLowerL c = "enter".toList then [] else b) cs).1 = []
    by_cases hc : toLowerL c = "enter".toList
    · rw [if_pos hc]
      rcases execLoop_fst_cases cs [] with h2 | h2
      · exact h2
      · exact h2
    · rw [if_neg hc]
      have hcc : c ≠ "enter".toList := by
        intro he
        exact hc (by rw [he]; decide)
      have hmem : "enter".toList ∈ cs := by
        rcases List.mem_cons.mp h with h | h
        · exact absurd h.symm hcc
        · exact h
      exact ih b hmem

/-- Helper: plain typing with a non-empty accumulator types the same
fragment with a single leading space. -/
theorem plainType_spacify (t b : L) (hb : b ≠ []) :
    (plainType t b).2 = ((plainType t []).2).map spacify := by
  simp [plainType, spacify, hb]

/-- Helper: the trailing-word scan with a non-empty accumulator produces the
same trace with each typed fragment prefixed by a single space. -/
theorem scanCmdWords_spacify (text nt : L) (ws : List L) :
    ∀ b, b ≠ [] →
      (scanCmdWords text nt b ws).2 = ((scanCmdWords text nt [] ws).2).map spacify := by
  induction ws with
  | nil => intro b hb; exact plainType_spacify text b hb
  | cons w ws ih =>
    intro b hb
    by_cases hE : endsWithCmdWord nt w = true
    · cases hL : lastIndexOfL w nt with
      | none => simpa [scanCmdWords, hE, hL] using ih b hb
      | some idx =>
        cases hP : parseCmd w with
        | none => simpa [scanCmdWords, hE, hL, hP] using ih b hb
        | some tok =>
          by_cases hB : trimL (text.take idx) = []
          · simp [scanCmdWords, hE, hL, hP, hB, spacify]
          · simp [scanCmdWords, hE, hL, hP, hB, hb, spacify]
    · simpa [scanCmdWords, hE] using ih b hb

/-- Helper: the fallback processing with a non-empty accumulator produces
the same trace with each typed fragment prefixed by a single space. -/
theorem fallbackProcess_spacify (text b : L) (hb : b ≠ []) :
    (fallbackProcess text b).2 = ((fallbackProcess text []).2).map spacify := by
  cases hP : parseCmd text with
  | some tok => simp [fallbackProcess, hP, spacify]
  | none =>
    simpa [fallbackProcess, hP] using
      scanCmdWords_spacify text (trimL (toLowerL text)) commandWords b hb

/-- Helper: the CrewAI branch with a non-empty accumulator produces the same
trace with each typed fragment prefixed by a single space. -/
theorem crewProcess_spacify (text : L) (a : Analysis) (b : L) (hb : b ≠ []) :
    (crewProcess text a b).2 = ((crewProcess text a []).2).map spacify := by
  by_cases hT : a.text ≠ [] ∧ trimL a.text ≠ []
  · by_cases hC : a.commands = []
    · simp [crewProcess, hT, hC, hb, spacify]
    · simp [crewProcess, hT, hC, hb, spacify, execLoop_snd, List.map_map]
  · by_cases hC : a.commands = []
    · simp [crewProcess, hT, hC, spacify]
    · simp [crewProcess, hT, hC, spacify, execLoop_snd, List.map_map]

/-- Helper: `execCmds` recovers the commands from the loop's trace. -/
theorem execCmds_map (cs : List L) : execCmds (cs.map Act.execCmd) = cs := by
  induction cs with
  | nil => simp [execCmds]
  | cons c cs ih =>
    simp only [execCmds, List.filterMap] at ih ⊢
    simp [ih]

/-- Helper: when the trailing-word scan executes an `enter`, the accumulator
ends up empty. -/
theorem scanCmdWords_enter (text nt : L) (ws : List L) :
    ∀ b, "enter".toList ∈ execCmds (scanCmdWords text nt b ws).2 →
      (scanCmdWords text nt b ws).1 = [] := by
  induction ws with
  | nil =>
    intro b h
    simp [scanCmdWords, plainType, execCmds] at h
  | cons w ws ih =>
    intro b h
    by_cases hE : endsWithCmdWord nt w = true
    · cases hL : lastIndexOfL w nt with
      | none =>
        simp only [scanCmdWords, hE, if_true, hL] at h ⊢
        exact ih b h
      | some idx =>
        cases hP : parseCmd w with
        | none =>
          simp only [scanCmdWords, hE, if_true, hL, hP] at h ⊢
          exact ih b h
        | some tok =>
          by_cases hB : trimL (text.take idx) = []
          · simp [scanCmdWords, hE, hL, hP, hB, execCmds] at h ⊢
            simp [← h]
          · simp [scanCmdWords, hE, hL, hP, hB, execCmds] at h ⊢
            simp [← h]
    · simp only [scanCmdWords, hE, if_false, Bool.false_eq_true] at h ⊢
      exact ih b h

/-- Helper: when the fallback processing executes an `enter`, the
accumulator ends up empty. -/
theorem fallbackProcess_enter (text b : L)
    (h : "enter".toList ∈ execCmds (fallbackProcess text b).2) :
    (fallbackProcess text b).1 = [] := by
  cases hP : parseCmd text with
  | some tok =>
    simp [fallbackProcess, hP, execCmds] at h ⊢
    simp [← h]
  | none =>
    simp only [fallbackProcess, hP] at h ⊢
    exact scanCmdWords_enter text (trimL (toLowerL text)) commandWords b h

/-- Helper: when the CrewAI branch executes an `enter`, the accumulator ends
up empty. -/
theorem crewProcess_enter (text : L) (a : Analysis) (b : L)
    (h : "enter".toList ∈ execCmds (crewProcess text a b).2) :
    (crewProcess text a b).1 = [] := by
  by_cases hC : a.commands = []
  · by_cases hT : a.text ≠ [] ∧ trimL a.text ≠ [] <;>
      simp [crewProcess, hC, hT, execCmds] at h
  · have hmem : "enter".toList ∈ a.commands := by
      by_cases hT : a.text ≠ [] ∧ trimL a.text ≠ [] <;>
        simpa [crewProcess, hC, hT, execCmds, execLoop_snd, execCmds_map,
          List.filterMap_append] using h
    by_cases hT : a.text ≠ [] ∧ trimL a.text ≠ [] <;>
      simp [crewProcess, hC, hT, execLoop_enter _ _ hmem]

/-- Helper: the translation stage emits at most the `translated` event. -/
theorem translateStage_cases (env : PEnv) (t : L) :
    (translateStage env t).2 = [] ∨ (translateStage env t).2 = [Act.emitTranslated] := by
  by_cases hTE : env.translationEnabled = true
  · cases hR : env.transResult with
    | none => left; simp [translateStage, hTE, hR]
    | some r =>
      by_cases hE : r.isEnglish = true
      · left; simp [translateStage, hTE, hR, hE]
      · right
        have hE' : r.isEnglish = false := by
          rcases Bool.eq_false_or_eq_true r.isEnglish with h | h
          · exact absurd h hE
          · exact h
        simp [translateStage, hTE, hR, hE']
  · left; simp [translateStage, hTE]

/-- Helper: the pipeline with a non-empty accumulator produces the same
trace with each typed fragment prefixed by a single space. -/
theorem pipeline_spacify (env : PEnv) (text b : L) (hb : b ≠ []) :
    (pipeline env text b).2 = ((pipeline env text []).2).map spacify := by
  by_cases hC : env.crewEnabled = true
  · simpa [pipeline, hC] using crewProcess_spacify text env.crewAnalysis b hb
  · by_cases hV : env.voiceCommands = true
    · simpa [pipeline, hC, hV] using fallbackProcess_spacify text b hb
    · simpa [pipeline, hC, hV] using plainType_spacify text b hb

/-- Helper: when the pipeline executes an `enter`, the accumulator ends up
empty. -/
theorem pipeline_enter (env : PEnv) (text b : L)
    (h : "enter".toList ∈ execCmds (pipeline env text b).2) :
    (pipeline env text b).1 = [] := by
  by_cases hC : env.crewEnabled = true
  · simp only [pipeline, hC, if_true] at h ⊢
    exact crewProcess_enter _ _ _ h
  · by_cases hV : env.voiceCommands = true
    · simp only [pipeline, hC, hV, if_true, if_false, Bool.false_eq_true] at h ⊢
      exact fallbackProcess_enter _ _ h
    · simp [pipeline, hC, hV, plainType, execCmds] at h

/-- Claim C5 (corrected).  Within one listening episode: the accumulator
(`finalTextBuffer`) only affects what is typed by prefixing exactly one
space to each typed fragment when it is non-empty (a run of
`processFinalTranscription` from a non-empty accumulator produces exactly
the trace of the same run from an empty accumulator with one space prefixed
to each typed fragment, so the second and subsequent fragments are
space-prefixed and a fragment typed from an empty accumulator is not);
executing an `enter` command leaves the accumulator empty, so the next
fragment is not prefixed; and the accumulator is reset to empty when the
next session starts — `start()` resets it after its precondition checks —
not by `stop()`, which leaves it unchanged (see the counterexample). -/
theorem C5_accumulator (env : PEnv) (st : CState) (text : L) (isF : Bool) :
    (st.finalTextBuffer ≠ [] →
      (processFinal env st text isF).2 =
        ((processFinal env { st with finalTextBuffer := [] } text isF).2).map spacify) ∧
    ("enter".toList ∈ execCmds (processFinal env st text isF).2 →
      (processFinal env st text isF).1.finalTextBuffer = []) ∧
    (∀ aenv : AuthEnv, aenv.authenticated = true → aenv.sttPermission = true →
      aenv.quotaAllowed = true → st.mode ≠ Mode.listening →
      (ctrlStart aenv st).1.finalTextBuffer = []) := by
  obtain ⟨m, bg, b⟩ := st
  refine ⟨?_, ?_, ?_⟩
  · intro hb
    show (processFinal env ⟨m, bg, b⟩ text isF).2 =
      ((processFinal env ⟨m, bg, []⟩ text isF).2).map spacify
    by_cases h1 : (!isF) = true
    · simp [processFinal, h1]
    · by_cases h2 : trimL text = []
      · simp [processFinal, h1, h2]
      · by_cases h3 : m = Mode.background_listening ∧ env.trig.enabled = true
        · cases hD : detect env.trig text with
          | none => simp [processFinal, h1, h2, h3, hD]
          | some r =>
            obtain ⟨ty, mt⟩ := r
            cases ty <;> simp [processFinal, h1, h2, h3, hD, spacify]
        · by_cases h4 : m = Mode.listening ∧ env.trig.enabled = true
              ∧ isDeactivate (detect env.trig text) = true
          · simp [processFinal, h1, h2, h3, h4, spacify]
          · simp only [processFinal, h1, h2, h3, h4, if_false, Bool.false_eq_true,
              ite_false, ite_true, if_true]
            rw [List.map_append, ← pipeline_spacify env (translateStage env text).1 b hb]
            rcases translateStage_cases env text with hT | hT <;> rw [hT] <;> simp [spacify]
  · intro h
    by_cases h1 : (!isF) = true
    · simp [processFinal, h1, execCmds] at h
    · by_cases h2 : trimL text = []
      · simp [processFinal, h1, h2, execCmds] at h
      · by_cases h3 : m = Mode.background_listening ∧ env.trig.enabled = true
        · cases hD : detect env.trig text with
          | none => simp [processFinal, h1, h2, h3, hD, execCmds] at h
          | some r =>
            obtain ⟨ty, mt⟩ := r
            cases ty <;> simp [processFinal, h1, h2, h3, hD, execCmds] at h
        · by_cases h4 : m = Mode.listening ∧ env.trig.enabled = true
              ∧ isDeactivate (detect env.trig text) = true
          · simp [processFinal, h1, h2, h3, h4, execCmds] at h
          · have henter : "enter".toList
                ∈ execCmds (pipeline env (translateStage env text).1 b).2 := by
              rcases translateStage_cases env text with hT | hT <;>
                simpa [processFinal, h1, h2, h3, h4, hT, execCmds] using h
            simp [processFinal, h1, h2, h3, h4, pipeline_enter _ _ _ henter]
  · intro aenv ha hp hq hm
    simp [ctrlStart, stopBackgroundL, hm, ha, hp, hq]

/-- Witness for C5: a non-empty accumulator (`Hi`), the transcript `send`
(the fallback grammar maps it to one `enter`), voice commands enabled and
CrewAI disabled: the trace from the non-empty accumulator is the spacified
trace from the empty one, the `enter` leaves the accumulator empty, and a
successful `start()` resets the accumulator. -/
theorem C5_accumulator_witness :
    stWithBuffer.finalTextBuffer ≠ [] ∧
    (processFinal envFallback stWithBuffer "send".toList true).2 =
      ((processFinal envFallback { stWithBuffer with finalTextBuffer := [] }
          "send".toList true).2).map spacify ∧
    "enter".toList ∈ execCmds (processFinal envFallback stWithBuffer "send".toList true).2 ∧
    (processFinal envFallback stWithBuffer "send".toList true).1.finalTextBuffer = [] ∧
    (ctrlStart ⟨true, true, true⟩ stWithBuffer).1.finalTextBuffer = [] := by
  have h := C5_accumulator envFallback stWithBuffer "send".toList true
  refine ⟨by decide, h.1 (by decide), by decide, h.2.1 (by decide), ?_⟩
  exact h.2.2 ⟨true, true, true⟩ rfl rfl rfl (by decide)

/-- Counterexample to C5 as stated: the claim says the accumulator is reset
to empty on stop, but `stop()` does not touch `finalTextBuffer` — stopping a
listening controller whose accumulator holds `Hello` leaves `Hello` in the
accumulator (it is only reset by the next `start()`). -/
theorem C5_counterexample :
    (ctrlStop ⟨Mode.listening, false, "Hello".toList⟩).1.finalTextBuffer
      = "Hello".toList ∧
    (ctrlStop ⟨Mode.listening, false, "Hello".toList⟩).1.finalTextBuffer ≠ [] := by
  decide

/-- Helper: the trailing-word scan executes at most one command. -/
theorem scanCmdWords_exec_len (text nt : L) (ws : List L) :
    ∀ b, (execCmds (scanCmdWords text nt b ws).2).length ≤ 1 := by
  induction ws with
  | nil => intro b; simp [scanCmdWords, plainType, execCmds]
  | cons w ws ih =>
    intro b
    by_cases hE : endsWithCmdWord nt w = true
    · cases hL : lastIndexOfL w nt with
      | none => simpa [scanCmdWords, hE, hL] using ih b
      | some idx =>
        cases hP : parseCmd w with
        | none => simpa [scanCmdWords, hE, hL, hP] using ih b
        | some tok =>
          by_cases hB : trimL (text.take idx) = [] <;>
            simp [scanCmdWords, hE, hL, hP, hB, execCmds]
    · simpa [scanCmdWords, hE] using ih b

/-- Helper: the fallback processing executes at most one command. -/
theorem fallbackProcess_exec_len (text b : L) :
    (execCmds (fallbackProcess text b).2).length ≤ 1 := by
  cases hP : parseCmd text with
  | some tok => simp [fallbackProcess, hP, execCmds]
  | none =>
    simpa [fallbackProcess, hP] using
      scanCmdWords_exec_len text (trimL (toLowerL text)) commandWords b

/-- Claim C2 (corrected).  With voice commands enabled and CrewAI disabled,
one `processFinalTranscription` call executes at most one command: the first
command word of the fixed precedence list that matches at the end of the
transcript; everything before that word's last occurrence is typed and may
itself contain command phrases.  In particular the spec's example input
`Hello world. send it. tab` yields typed text `Hello world. send it.` and
the single command `tab` — not typed text `Hello world.` with commands
`enter, tab` (see the counterexample). -/
theorem C2_fallback_separation :
    (∀ (env : PEnv) (st : CState) (text : L) (isF : Bool),
       env.crewEnabled = false →
       (execCmds (processFinal env st text isF).2).length ≤ 1) ∧
    processFinal envFallback stListening "Hello world. send it. tab".toList true
      = ({ mode := Mode.listening, backgroundListening := false,
           finalTextBuffer := "Hello world. send it.".toList },
         [Act.typeText "Hello world. send it.".toList,
          Act.execCmd "tab".toList,
          Act.emitCommand ["tab".toList]]) := by
  constructor
  · intro env st text isF hcrew
    obtain ⟨m, bg, b⟩ := st
    by_cases h1 : (!isF) = true
    · simp [processFinal, h1, execCmds]
    · by_cases h2 : trimL text = []
      · simp [processFinal, h1, h2, execCmds]
      · by_cases h3 : m = Mode.background_listening ∧ env.trig.enabled = true
        · cases hD : detect env.trig text with
          | none => simp [processFinal, h1, h2, h3, hD, execCmds]
          | some r =>
            obtain ⟨ty, mt⟩ := r
            cases ty <;> simp [processFinal, h1, h2, h3, hD, execCmds]
        · by_cases h4 : m = Mode.listening ∧ env.trig.enabled = true
              ∧ isDeactivate (detect env.trig text) = true
          · simp [processFinal, h1, h2, h3, h4, execCmds]
          · have hp : (execCmds (pipeline env (translateStage env text).1 b).2).length
                ≤ 1 := by
              by_cases hV : env.voiceCommands = true
              · simpa [pipeline, hcrew, hV] using
                  fallbackProcess_exec_len (translateStage env text).1 b
              · simp [pipeline, hcrew, hV, plainType, execCmds]
            rcases translateStage_cases env text with hT | hT <;>
              simpa [processFinal, h1, h2, h3, h4, hT, execCmds] using hp
  · decide

/-- Witness for C2 at the fallback configuration and the example input. -/
theorem C2_fallback_separation_witness :
    envFallback.crewEnabled = false ∧
    (execCmds (processFinal envFallback stListening
        "Hello world. send it. tab".toList true).2).length ≤ 1 := by
  refine ⟨rfl, ?_⟩
  exact C2_fallback_separation.1 envFallback stListening
    "Hello world. send it. tab".toList true rfl

/-- Counterexample to C2 as stated: on input `Hello world. send it. tab`
(voice commands enabled, CrewAI disabled) the fallback grammar types
`Hello world. send it.` — which still contains the command phrase `send it`
— and executes only `tab`; the claim's asserted output (typed text
`Hello world.`, commands `enter, tab`) is what the NL-extraction prompt
documents, not what the fallback grammar computes. -/
theorem C2_counterexample :
    typedTexts (processFinal envFallback stListening
        "Hello world. send it. tab".toList true).2
      = ["Hello world. send it.".toList] ∧
    "Hello world. send it.".toList ≠ "Hello world.".toList ∧
    execCmds (processFinal envFallback stListening
        "Hello world. send it. tab".toList true).2
      = ["tab".toList] ∧
    (["tab".toList] : List L) ≠ ["enter".toList, "tab".toList] := by
  decide

end EchoScript
